import Mathlib

set_option maxRecDepth 8000

/-!
# Verification of `dire_wolf_to_navit.py`

A shallow embedding of the core of `src/dire_wolf_to_navit.py`: the field
validators, the NMEA encoder (coordinate conversion and checksum), the
position store (the module-level `POI_DICTIONARY`), ingestion from the Dire
Wolf CSV log, stale-entry eviction, and the POI-file serializer.

Modelling conventions:
* Python strings are Lean `String`s; `str.replace`, `str.strip`, `str.isspace`
  are modelled on their ASCII behaviour (the data handled is ASCII).
* Python `float` arithmetic is modelled with exact rationals `ℚ`.  The
  numerical claims checked here live far above the 1 ulp scale of IEEE-754
  doubles, and every concrete witness below evaluates identically under
  doubles and under `ℚ`.
* `datetime` values are modelled as `PyDateTime`: an awareness flag plus an
  instant in microseconds on a proleptic-Gregorian timeline (the exact
  day-difference algorithm), so that `datetime` comparison and
  `timedelta(minutes = m)` addition are integer arithmetic.
* Python `dict` (insertion-ordered, unique keys) is modelled as an
  association list; updating an existing key rewrites the value in place,
  a new key is appended at the end, deletion removes the pair.
* Code that can raise returns `Except String` / `Option`.
-/

namespace DireWolfToNavit

/-! ## Configuration constants (module header of the source) -/

/-- `LATITUDE = 33.435` — the configured map-center latitude. -/
def LATITUDE : ℚ := 33.435

/-- `LONGITUDE = -112.00833334` — the configured map-center longitude. -/
def LONGITUDE : ℚ := -112.00833334

/-- `NAVIT_POI_ACTIVE_ICON_FILE_PATH`. -/
def NAVIT_POI_ACTIVE_ICON_FILE_PATH : String :=
  "/home/pi/dire_wolf_to_navit/icons/gprs_active.png"

/-- `NAVIT_POI_INACTIVE_ICON_FILE_PATH`. -/
def NAVIT_POI_INACTIVE_ICON_FILE_PATH : String :=
  "/home/pi/dire_wolf_to_navit/icons/gprs_inactive.png"

/-! ## NMEA checksum (`get_checksum`) -/

/-- `chr(n)` immediately followed by `ord(...)`, as each loop iteration of
`get_checksum` does: Python's `chr` raises `ValueError` for code points
outside `range(0x110000)` (surrogates are accepted), and `ord` undoes it, so
the composite is the identity below `0x110000` and an error beyond. -/
def chrOrd (n : Nat) : Option Nat :=
  if n < 1114112 then some n else none

/-- The accumulator loop of `get_checksum`: starting from `chr(0)` the code
repeatedly takes `chr(ord(checksum) ^ ord(c))`, so the value carried is the
XOR of the code points seen so far — and the loop raises `ValueError` as soon
as an intermediate XOR leaves `chr`'s range (possible only when the input
holds astral-plane characters; every intermediate value stays below 128 on
ASCII input). -/
def checksumFoldE (sentence : String) : Option Nat :=
  sentence.toList.foldl (fun acc c => acc.bind (fun a => chrOrd (a ^^^ c.toNat))) (some 0)

/-- Uppercase hexadecimal digits of `n`, most significant first, no padding
(`"0"` for zero) — the digits produced by Python's `X` format code.
The first argument is recursion fuel (`n` itself is always enough). -/
def hexDigitsAux : Nat → Nat → List Char
  | 0, _ => []
  | fuel + 1, n =>
    if n = 0 then [] else hexDigitsAux fuel (n / 16) ++ [(Nat.digitChar (n % 16)).toUpper]

/-- Uppercase hexadecimal rendering of `n` (no padding). -/
def hexUpper (n : Nat) : String :=
  if n = 0 then "0" else String.mk (hexDigitsAux n n)

/-- Python's format spec `02X` applied to `n`: uppercase hexadecimal,
zero-padded on the left to a minimum width of two. -/
def format02X (n : Nat) : String :=
  let s := hexUpper n
  if s.length < 2 then String.mk (List.replicate (2 - s.length) '0') ++ s else s

/-- `get_checksum(sentence)` — XOR every character's code point through the
`chr`/`ord` loop, then render the final `ord` with the format spec `02X`;
`none` models the `ValueError` escaping the loop. -/
def get_checksum (sentence : String) : Option String :=
  (checksumFoldE sentence).map format02X

/-! ## Coordinate conversion (`convert_latitude_to_nmea_format`,
`convert_longitude_to_nmea_format`) -/

/-- Exactly six decimal digits of `n < 10^6`, zero-padded — the fractional
part printed by the format spec `09.6f`.  (For larger `n` the function keeps
only the low six digits; it is only ever applied to `n % 10^6`.) -/
def pad6 (n : Nat) : String :=
  String.mk [Nat.digitChar (n / 100000 % 10), Nat.digitChar (n / 10000 % 10),
    Nat.digitChar (n / 1000 % 10), Nat.digitChar (n / 100 % 10),
    Nat.digitChar (n / 10 % 10), Nat.digitChar (n % 10)]

/-- The integer part of a `09.6f`-formatted value: Python pads the whole
9-character field with zeros on the left, which for a six-digit fractional
part and the decimal point means the integer part occupies (at least) two
zero-padded digits; an integer part of 100 or more simply widens the field. -/
def intPart09 (k : Nat) : String :=
  if k < 100 then String.mk [Nat.digitChar (k / 10), Nat.digitChar (k % 10)]
  else Nat.repr k

/-- The rounding performed when Python prints a (nonnegative) value with six
fractional digits: the printed digits are `round(v * 10^6)` (ties at exactly
one half are not hit by the values arising here). -/
def scaled6 (v : ℚ) : Nat :=
  (⌊v * 1000000 + 1 / 2⌋).toNat

/-- Python's format spec `09.6f` applied to a nonnegative value: six
fractional digits, total width at least nine, zero-padded. -/
def format09_6f (v : ℚ) : String :=
  intPart09 (scaled6 v / 1000000) ++ "." ++ pad6 (scaled6 v % 1000000)

/-- The `minutes` local of the converters: the fractional part of the
unsigned decimal-degree value (`unsigned - math.floor(unsigned)`). -/
def minutesFrac (x : ℚ) : ℚ :=
  |x| - ⌊|x|⌋

/-- The integer-degrees field of the converters: `int(float(math.floor(unsigned)))`,
printed in decimal. -/
def degreesStr (x : ℚ) : String :=
  Nat.repr (⌊|x|⌋).toNat

/-- `convert_latitude_to_nmea_format(decimal_degree_latitude)`. -/
def convert_latitude_to_nmea_format (decimal_degree_latitude : ℚ) : String :=
  degreesStr decimal_degree_latitude
    ++ format09_6f (minutesFrac decimal_degree_latitude * 60)
    ++ "," ++ (if decimal_degree_latitude < 0 then "S" else "N")

/-- `convert_longitude_to_nmea_format(decimal_degree_longitude)`. -/
def convert_longitude_to_nmea_format (decimal_degree_longitude : ℚ) : String :=
  degreesStr decimal_degree_longitude
    ++ format09_6f (minutesFrac decimal_degree_longitude * 60)
    ++ "," ++ (if decimal_degree_longitude < 0 then "W" else "E")

/-- The conceptual decoder of the spec: read back the integer degrees and the
six-fractional-digit minutes printed by the encoder, form
`degrees + minutes / 60`, and re-apply the hemisphere sign. -/
def decodeConceptually (x : ℚ) : ℚ :=
  (if x < 0 then -1 else 1)
    * (((⌊|x|⌋).toNat : ℚ) + ((scaled6 (minutesFrac x * 60) : ℕ) : ℚ) / 1000000 / 60)

/-! ## Python `float()` (used by `latitude_string_valid` / `longitude_string_valid`)

Python `float` values are modelled as exact rationals plus the three special
values; `float()` string conversion is modelled on its documented grammar
(optional surrounding whitespace, optional sign, `inf`/`infinity`/`nan`
case-insensitively, or a decimal literal with optional fraction, optional
exponent, and underscores only between digits).  Binary rounding and
overflow-to-infinity are not modelled; no value handled here is affected. -/

inductive PyFloat
  | finite (num : Int) (den : Nat)
  | inf
  | ninf
  | nan
deriving DecidableEq

/-- The rational value of a finite float (`den` is always positive here, a
power of ten). -/
def PyFloat.val : PyFloat → Option ℚ
  | .finite n d => some ((n : ℚ) / (d : ℚ))
  | _ => none

/-- Python `v > b` for a float `v` and an integer bound: comparisons with
`nan` are false, `inf` is greater than everything finite, `-inf` less.
For a finite `n / d` (with `d > 0`) the comparison is cross-multiplied. -/
def PyFloat.gtInt (v : PyFloat) (b : Int) : Bool :=
  match v with
  | .finite n d => decide (b * d < n)
  | .inf => true
  | .ninf => false
  | .nan => false

/-- Python `v < b` for a float `v` and an integer bound. -/
def PyFloat.ltInt (v : PyFloat) (b : Int) : Bool :=
  match v with
  | .finite n d => decide (n < b * d)
  | .inf => false
  | .ninf => true
  | .nan => false

/-- Consume a run of decimal digits in which a single underscore may appear
between two digits (Python numeric-literal grouping); returns the digits and
the unconsumed remainder. -/
def takeDigitsUAux : Nat → List Char → List Nat × List Char
  | 0, cs => ([], cs)
  | _, [] => ([], [])
  | fuel + 1, c :: rest =>
    if c.isDigit then
      match rest with
      | '_' :: d :: rest2 =>
        if d.isDigit then
          let p := takeDigitsUAux fuel (d :: rest2)
          ((c.toNat - 48) :: p.1, p.2)
        else ([c.toNat - 48], '_' :: d :: rest2)
      | _ =>
        let p := takeDigitsUAux fuel rest
        ((c.toNat - 48) :: p.1, p.2)
    else ([], c :: rest)

/-- Consume a run of decimal digits (see `takeDigitsUAux`; the list's length
is always sufficient fuel). -/
def takeDigitsU (cs : List Char) : List Nat × List Char :=
  takeDigitsUAux cs.length cs

/-- Value of a digit run, most significant first. -/
def digitsVal (ds : List Nat) : Nat :=
  ds.foldl (fun a d => a * 10 + d) 0

/-- Python `float(s)` on a string, returning `none` where Python raises
`ValueError`. -/
def pyFloatOfString (s : String) : Option PyFloat :=
  let stripped := (s.toList.dropWhile Char.isWhitespace).reverse.dropWhile Char.isWhitespace
  let cs := stripped.reverse
  let sign : Int := match cs with | '-' :: _ => -1 | _ => 1
  let cs := match cs with | '+' :: r => r | '-' :: r => r | r => r
  let low := cs.map Char.toLower
  if low = "inf".toList ∨ low = "infinity".toList then
    some (if sign = 1 then .inf else .ninf)
  else if low = "nan".toList then
    some .nan
  else
    let ip := takeDigitsU cs
    let fp := match ip.2 with
      | '.' :: r => takeDigitsU r
      | _ => ([], ip.2)
    if ip.1 = [] ∧ fp.1 = [] then none
    else
      let mnum : Int := sign * ((digitsVal ip.1 * 10 ^ fp.1.length + digitsVal fp.1 : Nat) : Int)
      let mden : Nat := 10 ^ fp.1.length
      match fp.2 with
      | [] => some (.finite mnum mden)
      | 'e' :: r | 'E' :: r =>
        let esign : Int := match r with | '-' :: _ => -1 | _ => 1
        let r := match r with | '+' :: r2 => r2 | '-' :: r2 => r2 | r2 => r2
        let ep := takeDigitsU r
        if ep.1 = [] ∨ ep.2 ≠ [] then none
        else
          let scale : Nat := 10 ^ digitsVal ep.1
          if esign = 1 then some (.finite (mnum * scale) mden)
          else some (.finite mnum (mden * scale))
      | _ => none

/-- `latitude_string_valid(latitude_string)`:
`float(latitude_string) > -90 and float(latitude_string) < 90`, with any
exception caught as `False`. -/
def latitude_string_valid (latitude_string : String) : Bool :=
  match pyFloatOfString latitude_string with
  | none => false
  | some v => v.gtInt (-90) && v.ltInt 90

/-- `longitude_string_valid(longitude_string)`:
`float(longitude_string) > -180 and float(longitude_string) < 180`, with any
exception caught as `False`. -/
def longitude_string_valid (longitude_string : String) : Bool :=
  match pyFloatOfString longitude_string with
  | none => false
  | some v => v.gtInt (-180) && v.ltInt 180

/-! ## `datetime` model and `fromisoformat` -/

/-- A parsed `datetime`: timezone-awareness flag and the instant as
microseconds on the proleptic Gregorian timeline (for a naive value, the
nominal clock reading; naive values are never compared, matching Python's
`TypeError` on naive/aware comparison). -/
structure PyDateTime where
  aware : Bool
  instant : Int
deriving DecidableEq

/-- Gregorian leap-year rule. -/
def isLeapYear (y : Nat) : Bool :=
  y % 4 = 0 && (y % 100 ≠ 0 || y % 400 = 0)

/-- Days in a month of the Gregorian calendar. -/
def daysInMonth (y m : Nat) : Nat :=
  if m = 2 then (if isLeapYear y then 29 else 28)
  else if m = 4 ∨ m = 6 ∨ m = 9 ∨ m = 11 then 30
  else 31

/-- Day count of a civil date on a linear timeline (days since 0000-03-01,
the standard era-based civil-calendar algorithm); only differences and order
of these counts are ever used. -/
def daysFromCivil (y m d : Nat) : Nat :=
  let y' := if m ≤ 2 then y - 1 else y
  let era := y' / 400
  let yoe := y' % 400
  let mp := if 2 < m then m - 3 else m + 9
  let doy := (153 * mp + 2) / 5 + (d - 1)
  let doe := yoe * 365 + yoe / 4 - yoe / 100 + doy
  era * 146097 + doe

/-- Expect one specific character. -/
def expectChar (c : Char) : List Char → Option (List Char)
  | x :: r => if x = c then some r else none
  | [] => none

/-- Exactly two decimal digits. -/
def digit2 : List Char → Option (Nat × List Char)
  | a :: b :: r =>
    if a.isDigit && b.isDigit then some ((a.toNat - 48) * 10 + (b.toNat - 48), r) else none
  | _ => none

/-- Exactly four decimal digits. -/
def digit4 (cs : List Char) : Option (Nat × List Char) := do
  let (hi, r) ← digit2 cs
  let (lo, r) ← digit2 r
  some (hi * 100 + lo, r)

/-- A fractional-seconds suffix after the decimal point: exactly three or six
digits (the strict pre-3.11 `fromisoformat` grammar), as microseconds. -/
def parseFrac (cs : List Char) : Option (Nat × List Char) :=
  let ds := cs.takeWhile Char.isDigit
  let rest := cs.dropWhile Char.isDigit
  if ds.length = 3 then some (digitsVal (ds.map (·.toNat - 48)) * 1000, rest)
  else if ds.length = 6 then some (digitsVal (ds.map (·.toNat - 48)), rest)
  else none

/-- A timezone offset `±HH:MM[:SS]`, in microseconds (signed). -/
def parseOffset : List Char → Option (Int × List Char)
  | c :: r =>
    if c = '+' ∨ c = '-' then do
      let (hh, r) ← digit2 r
      let r ← expectChar ':' r
      let (mm, r) ← digit2 r
      let p : Nat × List Char ← match r with
        | ':' :: r2 => digit2 r2
        | _ => some (0, r)
      if hh < 24 ∧ mm < 60 ∧ p.1 < 60 then
        let mag : Int := ((hh * 3600 + mm * 60 + p.1) * 1000000 : Nat)
        some (if c = '-' then -mag else mag, p.2)
      else none
    else none
  | [] => none

/-- `datetime.datetime.fromisoformat(s)`, on the strict grammar
`YYYY-MM-DD[*HH[:MM[:SS[.fff[fff]]]]][±HH:MM[:SS]]` accepted by the Python
versions this program targets (its comments note that `fromisoformat` cannot
handle a trailing `Z`), returning `none` where Python raises. -/
def fromisoformat (s : String) : Option PyDateTime := do
  let cs := s.toList
  let (y, r) ← digit4 cs
  let r ← expectChar '-' r
  let (mo, r) ← digit2 r
  let r ← expectChar '-' r
  let (d, r) ← digit2 r
  if 1 ≤ y ∧ 1 ≤ mo ∧ mo ≤ 12 ∧ 1 ≤ d ∧ d ≤ daysInMonth y mo then
    let base : Int := (daysFromCivil y mo d : Int) * 86400000000
    match r with
    | [] => some ⟨false, base⟩
    | _sep :: r => do
      let (hh, r) ← digit2 r
      let pmm : Nat × List Char ← match r with
        | ':' :: r2 => digit2 r2
        | _ => some (0, r)
      let pss : Nat × List Char ← match pmm.2 with
        | ':' :: r2 => digit2 r2
        | _ => some (0, pmm.2)
      let pus : Nat × List Char ← match pss.2 with
        | '.' :: r2 => parseFrac r2
        | _ => some (0, pss.2)
      if hh < 24 ∧ pmm.1 < 60 ∧ pss.1 < 60 then
        let t : Int := base + ((hh * 3600 + pmm.1 * 60 + pss.1) * 1000000 + pus.1 : Nat)
        match pus.2 with
        | [] => some ⟨false, t⟩
        | rest => do
          let (off, r) ← parseOffset rest
          if r = [] then some ⟨true, t - off⟩ else none
      else none
  else none

/-- `str.replace('Z', '+00:00')` — every `Z` is replaced. -/
def pyReplaceZ (s : String) : String :=
  String.mk (s.toList.foldr
    (fun c acc => if c = 'Z' then '+' :: '0' :: '0' :: ':' :: '0' :: '0' :: acc else c :: acc) [])

/-- `iso_string_valid(iso_string)`: `fromisoformat` succeeds on the string
after the `Z` substitution. -/
def iso_string_valid (iso_string : String) : Bool :=
  (fromisoformat (pyReplaceZ iso_string)).isSome

/-! ## The position store (`POI_DICTIONARY`) and ingestion
(`refresh_dictionary_from_dire_wolf_csv_log_file`) -/

/-- One value of `POI_DICTIONARY`: the dictionary built at line 202 of the
source from a validated CSV row. -/
structure PositionEntry where
  isotime : String
  source : String
  latitude : String
  longitude : String
  comment : String
deriving DecidableEq

/-- `POI_DICTIONARY`, modelled as an insertion-ordered association list with
(at most) one pair per key, exactly like a Python `dict`. -/
abbrev Store := List (String × PositionEntry)

/-- A CSV row as produced by `csv.DictReader` with the Dire Wolf field names:
only the five fields the program reads are modelled; a field is `none` when
`row.get(...)` returns `None` (short line) and `some s` otherwise. -/
structure Row where
  source : Option String
  isotime : Option String
  latitude : Option String
  longitude : Option String
  comment : Option String
deriving DecidableEq

/-- Python `str.isspace()`: non-empty and all whitespace. -/
def pyIsSpace (s : String) : Bool :=
  s.length > 0 && s.toList.all Char.isWhitespace

/-- Python `str.strip()` (ASCII whitespace). -/
def pyStrip (s : String) : String :=
  String.mk ((s.toList.dropWhile Char.isWhitespace).reverse.dropWhile Char.isWhitespace).reverse

/-- `valid_source` (line 192): present, not the literal header token
`'source'`, and not purely whitespace. -/
def valid_source (r : Row) : Bool :=
  match r.source with
  | none => false
  | some s => decide (s ≠ "source") && !(pyIsSpace s)

/-- `valid_latitude` (line 193). -/
def valid_latitude (r : Row) : Bool :=
  match r.latitude with
  | none => false
  | some s => latitude_string_valid s

/-- `valid_longitude` (line 194).  NOTE: the source passes
`row.get('latitude')` — the latitude string — to `longitude_string_valid`;
this definition reproduces that faithfully. -/
def valid_longitude (r : Row) : Bool :=
  match r.longitude, r.latitude with
  | none, _ => false
  | some _, none => false
  | some _, some latStr => longitude_string_valid latStr

/-- `valid_isotime` (line 195). -/
def valid_isotime (r : Row) : Bool :=
  match r.isotime with
  | none => false
  | some s => iso_string_valid s

/-- `all_valid` (line 196). -/
def all_valid (r : Row) : Bool :=
  valid_source r && valid_latitude r && valid_longitude r && valid_isotime r

/-- The entry dictionary built from a validated row (lines 202–208); the four
required fields are present whenever `all_valid` holds, the comment defaults
to the empty string and is stripped. -/
def entryOfRow (r : Row) : PositionEntry where
  isotime := r.isotime.getD ""
  source := r.source.getD ""
  latitude := r.latitude.getD ""
  longitude := r.longitude.getD ""
  comment := match r.comment with
    | some c => pyStrip c
    | none => ""

/-- Python-`dict` upsert: `POI_DICTIONARY[key] = entry` rewrites an existing
key in place and appends a new key at the end. -/
def dictUpsert (k : String) (v : PositionEntry) : Store → Store
  | [] => [(k, v)]
  | (k', v') :: rest => if k' = k then (k, v) :: rest else (k', v') :: dictUpsert k v rest

/-- One loop iteration of
`refresh_dictionary_from_dire_wolf_csv_log_file` (lines 189–211): skip an
invalid row, upsert a valid one keyed by its source. -/
def ingestRow (store : Store) (r : Row) : Store :=
  if all_valid r then dictUpsert (r.source.getD "") (entryOfRow r) store else store

/-- `refresh_dictionary_from_dire_wolf_csv_log_file`, applied to the parsed
rows of the log file in file order (the missing-file case ingests nothing,
and truncating the log afterwards does not touch the store). -/
def refresh_dictionary_from_dire_wolf_csv_log_file (rows : List Row) (store : Store) : Store :=
  rows.foldl ingestRow store

/-! ## Eviction (`remove_stale_entries_from_dictionary`) -/

/-- The error raised when a stored `isotime` fails to parse (Python
`ValueError` from `fromisoformat`). -/
def parseErrorMsg : String := "ValueError: invalid isoformat string"

/-- The error raised when a naive stored timestamp is compared against the
aware `now` (Python `TypeError`). -/
def naiveCompareErrorMsg : String := "TypeError: cannot compare naive and aware datetimes"

/-- The `then` local (lines 155 and 229):
`fromisoformat(entry['isotime'].replace('Z', '+00:00'))`. -/
def parseEntryTime (e : PositionEntry) : Option PyDateTime :=
  fromisoformat (pyReplaceZ e.isotime)

/-- `remove_stale_entries_from_dictionary` with the removal threshold
`MINUTES_UNTIL_APRS_REMOVED` (an `Option`: `none` models `None`) and the
UTC instant `now` in microseconds.  Each entry's timestamp is parsed first
(raising on an unparsable string); the guard
`MINUTES_UNTIL_APRS_REMOVED is not None and then + timedelta(...) < now`
short-circuits, so the naive/aware comparison error can only arise when a
threshold is configured.  An entry is deleted exactly when the guard holds. -/
def remove_stale_entries_from_dictionary (thr : Option Int) (now : Int) :
    Store → Except String Store
  | [] => .ok []
  | p :: rest =>
    match parseEntryTime p.2 with
    | none => .error parseErrorMsg
    | some dt =>
      match thr with
      | none => (remove_stale_entries_from_dictionary none now rest).map (p :: ·)
      | some m =>
        if dt.aware then
          (remove_stale_entries_from_dictionary (some m) now rest).map
            (fun r => if dt.instant + m * 60000000 < now then r else p :: r)
        else .error naiveCompareErrorMsg

/-! ## Serialization (`refresh_navit_poi_file_from_dictionary`) -/

/-- Python string `<=`: lexicographic comparison of code points. -/
def charListLe : List Char → List Char → Bool
  | [], _ => true
  | _ :: _, [] => false
  | a :: as, b :: bs =>
    if a.toNat < b.toNat then true
    else if b.toNat < a.toNat then false
    else charListLe as bs

/-- Python `a <= b` on strings. -/
def pyStrLe (a b : String) : Bool :=
  charListLe a.toList b.toList

/-- The sort key comparison used at line 149:
`sorted(POI_DICTIONARY.values(), key = ... entry['isotime'], reverse = True)`.
Python's sort is stable and, under `reverse = True`, equal keys keep their
original order; that is exactly insertion sort under the relation
"my key is at least yours" (descending, ties broken by original position). -/
def isoDesc (e1 e2 : PositionEntry) : Prop :=
  pyStrLe e2.isotime e1.isotime = true

instance : DecidableRel isoDesc := fun e1 e2 =>
  inferInstanceAs (Decidable (pyStrLe e2.isotime e1.isotime = true))

/-- `is_inactive` (line 161):
`MINUTES_UNTIL_APRS_INACTIVE is not None and then + timedelta(minutes = MINUTES_UNTIL_APRS_INACTIVE) < now`,
with the naive/aware `TypeError` surfaced as an error. -/
def is_inactive (inactThr : Option Int) (now : Int) (dt : PyDateTime) : Except String Bool :=
  match inactThr with
  | none => .ok false
  | some m =>
    if dt.aware then .ok (dt.instant + m * 60000000 < now)
    else .error naiveCompareErrorMsg

/-- The line written for one entry (line 174), given the icon path chosen
from the activity classification. -/
def poiLine (e : PositionEntry) (iconPath : String) (showComment : Bool) : String :=
  let comment := if showComment && decide ((pyStrip e.comment).length > 0)
    then " — " ++ e.comment else ""
  "mg: " ++ e.longitude ++ " " ++ e.latitude ++ " isotime=\"" ++ e.isotime
    ++ "\" type=\"poi_custom0\" icon_src=\"" ++ iconPath
    ++ "\" label=\"" ++ e.source ++ comment ++ "\"\n"

/-- The body of the serializer loop for one entry (lines 152–174): parse the
timestamp, classify, pick the icon, emit the line. -/
def renderEntry (inactThr : Option Int) (showComment : Bool) (now : Int)
    (e : PositionEntry) : Except String String :=
  match parseEntryTime e with
  | none => .error parseErrorMsg
  | some dt =>
    match is_inactive inactThr now dt with
    | .error msg => .error msg
    | .ok inact =>
      .ok (poiLine e
        (if inact then NAVIT_POI_INACTIVE_ICON_FILE_PATH else NAVIT_POI_ACTIVE_ICON_FILE_PATH)
        showComment)

/-- The serializer loop over the sorted entries. -/
def renderEntries (inactThr : Option Int) (showComment : Bool) (now : Int) :
    List PositionEntry → Except String (List String)
  | [] => .ok []
  | e :: rest =>
    match renderEntry inactThr showComment now e with
    | .error msg => .error msg
    | .ok line => (renderEntries inactThr showComment now rest).map (line :: ·)

/-- `refresh_navit_poi_file_from_dictionary`: sort the stored entries by raw
`isotime` string, descending and stable, then emit one line per entry.  The
result is the list of lines written to the (truncated) POI file. -/
def refresh_navit_poi_file_from_dictionary (inactThr : Option Int) (showComment : Bool)
    (now : Int) (store : Store) : Except String (List String) :=
  renderEntries inactThr showComment now (List.insertionSort isoDesc (store.map Prod.snd))

/-- The POI file's observable content when the serializer's write fails after
`k` of its per-entry `write` calls: opening with mode `w+` truncates the file
at once, so the previous content `prior` is gone regardless of `k` and the
file holds exactly the lines already written. -/
def fileAfterPartialWrite (_prior : String) (lines : List String) (k : Nat) : String :=
  String.join (lines.take k)

/-! ## The mock GPS emitter (`get_mock_gps_location_in_nmea_gpgga_format`) -/

/-- The sentence body built at line 135; `current_time` stands for
`datetime.datetime.now().strftime('%H%M%S')` — the *local* wall-clock
reading, passed in as a parameter of the model. -/
def gpggaBody (current_time : String) : String :=
  "GPGGA," ++ current_time ++ "," ++ convert_latitude_to_nmea_format LATITUDE
    ++ "," ++ convert_longitude_to_nmea_format LONGITUDE ++ ",1,12,1.0,0.0,M,0.0,M,,"

/-- `get_mock_gps_location_in_nmea_gpgga_format()`, as a function of the
formatted local-time string it embeds; an exception from `get_checksum`
propagates (it cannot occur for the all-ASCII bodies the program builds). -/
def get_mock_gps_location_in_nmea_gpgga_format (current_time : String) : Option String :=
  (get_checksum (gpggaBody current_time)).map
    (fun checksum => "$" ++ gpggaBody current_time ++ "*" ++ checksum)

/-! ## Reachable stores -/

/-- The stores the process can actually hold: empty at start, then any
interleaving of ingests and (successful) evictions.  (The serializer never
mutates the store.) -/
inductive Reachable : Store → Prop
  | empty : Reachable []
  | ingest (rows : List Row) (s : Store) :
      Reachable s → Reachable (refresh_dictionary_from_dire_wolf_csv_log_file rows s)
  | evict (thr : Option Int) (now : Int) (s s' : Store) :
      Reachable s → remove_stale_entries_from_dictionary thr now s = .ok s' → Reachable s'

/-! ## Auxiliary definitions used by the statements -/

/-- The parsed instant of a stored pair (in microseconds), defaulting to `0`
for an unparsable timestamp; the statements using it always require the
timestamp to parse. -/
def entryInstant (p : String × PositionEntry) : Int :=
  match parseEntryTime p.2 with
  | some dt => dt.instant
  | none => 0

/-- A stored pair whose timestamp parses to an aware `datetime` (the shape
every Dire-Wolf-produced `isotime` has, its trailing `Z` having been
substituted). -/
def parsedAware (p : String × PositionEntry) : Bool :=
  match parseEntryTime p.2 with
  | some dt => dt.aware
  | none => false

/-- The XOR fold of a string's code points, written as a right fold — the
specification's description of the checksum, to be compared with the
accumulator loop of `get_checksum`. -/
def xorFoldSpec (s : String) : Nat :=
  s.data.foldr (fun c a => c.toNat ^^^ a) 0

/-- An entry on which `renderEntry` cannot raise: the timestamp parses, and
it is timezone-aware whenever an inactivity threshold is configured (the
short-circuit in `is_inactive` never compares when the threshold is `None`). -/
def renderOk (inactThr : Option Int) (e : PositionEntry) : Bool :=
  match parseEntryTime e with
  | none => false
  | some dt => inactThr.isNone || dt.aware

/-- The line `renderEntry` produces when it does not raise. -/
def lineOf (inactThr : Option Int) (showComment : Bool) (now : Int) (e : PositionEntry) : String :=
  let inact : Bool := match inactThr, parseEntryTime e with
    | some m, some dt => decide (dt.instant + m * 60000000 < now)
    | _, _ => false
  poiLine e
    (if inact then NAVIT_POI_INACTIVE_ICON_FILE_PATH else NAVIT_POI_ACTIVE_ICON_FILE_PATH)
    showComment

/-! ## Concrete data for witnesses and counterexamples -/

/-- A CSV row whose longitude field is out of range (200.0) but whose
latitude field is in range. -/
def rowBadLongitude : Row :=
  ⟨some "TEST", some "2024-01-01T00:00:00Z", some "33.0", some "200.0", some ""⟩

/-- First of two rows for the same source (the later report time). -/
def rowDup1 : Row :=
  ⟨some "N0CALL", some "2024-01-01T01:00:00Z", some "33.1", some "-112.1", some "test"⟩

/-- Second of two rows for the same source, with an earlier report time. -/
def rowDup2 : Row :=
  ⟨some "N0CALL", some "2024-01-01T00:00:00Z", some "33.2", some "-112.2", some " hi "⟩

/-- An entry aged 6 minutes at `nowSix`. -/
def entryAged6 : PositionEntry :=
  ⟨"2024-01-01T00:00:00Z", "AGE6", "33.0", "-112.0", ""⟩

/-- `2024-01-01T00:06:00Z` in microseconds — 6 minutes after `entryAged6`'s
timestamp. -/
def nowSix : Int := 63866102760000000

/-- An entry aged 61 minutes at `nowEvict`. -/
def entryAged61 : PositionEntry :=
  ⟨"2024-01-01T00:00:00Z", "A61", "33.0", "-112.0", ""⟩

/-- An entry aged 59 minutes at `nowEvict`. -/
def entryAged59 : PositionEntry :=
  ⟨"2024-01-01T00:02:00Z", "B59", "33.0", "-112.0", ""⟩

/-- `2024-01-01T01:01:00Z` in microseconds — 61 minutes after `entryAged61`'s
timestamp and 59 minutes after `entryAged59`'s. -/
def nowEvict : Int := 63866106060000000

/-- An entry whose timestamp string sorts *above* `entrySortB`'s
lexicographically although it denotes the *earlier* instant
(2023-12-31T23:00:00 UTC, written with a `+06:00` offset). -/
def entrySortA : PositionEntry :=
  ⟨"2024-01-01T05:00:00+06:00", "STNA", "33.0", "-112.0", ""⟩

/-- An entry denoting 2024-01-01T00:00:00 UTC. -/
def entrySortB : PositionEntry :=
  ⟨"2024-01-01T00:00:00Z", "STNB", "33.1", "-112.1", ""⟩

/-- A two-entry store on which string-descending and instant-descending
orders disagree. -/
def sortStore : Store := [("STNA", entrySortA), ("STNB", entrySortB)]

/-- Two astral-plane characters (U+100000 and U+10000) whose code points XOR
to 0x110000 — one past the top of `chr`'s range, so Python's checksum loop
raises `ValueError` on this string. -/
def astralPair : String :=
  String.mk [Char.ofNat 1048576, Char.ofNat 65536]

/-- A previously written, valid POI file content (one complete line). -/
def priorPoiContent : String :=
  poiLine ⟨"2023-12-31T00:00:00Z", "OLD", "33.0", "-112.0", ""⟩
    NAVIT_POI_ACTIVE_ICON_FILE_PATH true

/-! # Theorems -/

/-! ### C1 — longitude validation -/

/-- **C1.** The claim states that a row is admitted only if its *longitude*
string parses strictly within (−180, 180).  The code instead passes the
*latitude* string to `longitude_string_valid` (line 194), so the row
`rowBadLongitude` — longitude `"200.0"`, which `longitude_string_valid`
itself rejects — passes validation and is stored with longitude `"200.0"`.
The spec's design notes flag exactly this as a defect in the source, so the
claim is the intent and the code is the bug; this theorem evaluates the code
at the failing input. -/
theorem longitude_validator_bug :
    longitude_string_valid "200.0" = false
    ∧ all_valid rowBadLongitude = true
    ∧ refresh_dictionary_from_dire_wolf_csv_log_file [rowBadLongitude] []
        = [("TEST", entryOfRow rowBadLongitude)]
    ∧ (entryOfRow rowBadLongitude).longitude = "200.0" := by
  refine ⟨by decide, by decide, ?_, by decide⟩
  decide

/-! ### C7 — checksum -/

/-- The `02X` format always renders at least two digits, and exactly two
whenever the value fits in a byte. -/
theorem format02X_length_of_lt_256 : ∀ n < 256, (format02X n).length = 2 := by
  decide

/-- The checksum loop never recovers once an iteration has raised. -/
theorem checksumFold_none (l : List Char) :
    l.foldl (fun acc c => acc.bind (fun a => chrOrd (a ^^^ c.toNat))) none = none := by
  induction l with
  | nil => rfl
  | cons c l ih => simpa [Option.bind] using ih

/-- When the checksum loop completes, the value it carries is the plain XOR
fold of the code points from the starting accumulator. -/
theorem checksumFold_some : ∀ (l : List Char) (a n : Nat),
    l.foldl (fun acc c => acc.bind (fun x => chrOrd (x ^^^ c.toNat))) (some a) = some n →
      n = l.foldl (fun x c => x ^^^ c.toNat) a := by
  intro l
  induction l with
  | nil =>
    intro a n h
    injection h with h
    exact h.symm
  | cons c l ih =>
    intro a n h
    simp only [List.foldl_cons, Option.some_bind] at h
    by_cases hc : a ^^^ c.toNat < 1114112
    · rw [show chrOrd (a ^^^ c.toNat) = some (a ^^^ c.toNat) from if_pos hc] at h
      simpa using ih (a ^^^ c.toNat) n h
    · rw [show chrOrd (a ^^^ c.toNat) = none from if_neg hc, checksumFold_none] at h
      cases h

/-- A left XOR fold from any accumulator is the accumulator XOR the right
fold. -/
theorem foldl_xor_eq_foldr (l : List Char) (a : Nat) :
    l.foldl (fun x c => x ^^^ c.toNat) a = a ^^^ l.foldr (fun c m => c.toNat ^^^ m) 0 := by
  induction l generalizing a with
  | nil => simp
  | cons c l ih =>
    simp only [List.foldl_cons, List.foldr_cons, ih]
    rw [Nat.xor_assoc]

/-- XOR keeps seven-bit values seven-bit. -/
theorem xor_lt_128 {a b : Nat} (ha : a < 128) (hb : b < 128) : a ^^^ b < 128 := by
  have h : Nat.bitwise bne a b < 2 ^ 7 :=
    Nat.bitwise_lt (by simpa using ha) (by simpa using hb)
  simpa using h

/-- On an all-ASCII string every intermediate XOR stays below 128, so the
checksum loop completes (no `chr` can raise), with an ASCII result. -/
theorem checksumFold_ascii : ∀ (l : List Char) (a : Nat), a < 128 →
    (∀ c ∈ l, c.toNat < 128) →
      l.foldl (fun acc c => acc.bind (fun x => chrOrd (x ^^^ c.toNat))) (some a)
          = some (l.foldl (fun x c => x ^^^ c.toNat) a)
        ∧ l.foldl (fun x c => x ^^^ c.toNat) a < 128 := by
  intro l
  induction l with
  | nil =>
    intro a ha _
    exact ⟨rfl, ha⟩
  | cons c l ih =>
    intro a ha hl
    have hx : a ^^^ c.toNat < 128 := xor_lt_128 ha (hl c (List.mem_cons_self c l))
    have hrest := ih (a ^^^ c.toNat) hx (fun q hq => hl q (List.mem_cons_of_mem c hq))
    constructor
    · simp only [List.foldl_cons, Option.some_bind,
        show chrOrd (a ^^^ c.toNat) = some (a ^^^ c.toNat) from if_pos (by omega)]
      exact hrest.1
    · simpa using hrest.2

/-- **C7 (counterexample).** The claim asserts a two-digit rendering for
*every* input string.  Two failures: for `"Ā"` (code point 256) the XOR fold
is 256 and Python's `'02X'` format spec — a *minimum* width — renders three
digits; and on `astralPair` (U+100000 then U+10000) the loop's intermediate
XOR is 0x110000, outside `chr`'s range, so the checksum raises `ValueError`
and returns nothing at all. -/
theorem get_checksum_two_digits_counterexample :
    get_checksum "Ā" = some "100" ∧ ("100" : String).length ≠ 2
    ∧ get_checksum astralPair = none := by
  refine ⟨by decide, by decide, by decide⟩

/-- **C7 (amended).** On every input on which the checksum loop completes —
equivalently, every intermediate XOR stays in `chr`'s range, which holds in
particular for every all-ASCII string — `get_checksum` renders the XOR fold
of the code points as uppercase hexadecimal zero-padded to a *minimum* of
two digits, with exactly two digits whenever the fold is below 256 (always,
on ASCII input); a string whose intermediate XOR leaves `chr`'s range makes
the loop raise `ValueError` instead.  `get_checksum "" = "00"`, and
determinism is intrinsic: the model is a pure function. -/
theorem get_checksum_amended (s : String) :
    (∀ n, checksumFoldE s = some n →
      get_checksum s = some (format02X n)
      ∧ n = xorFoldSpec s
      ∧ (n < 256 → (format02X n).length = 2))
    ∧ ((∀ c ∈ s.toList, c.toNat < 128) →
        ∃ n, checksumFoldE s = some n ∧ n < 128
          ∧ get_checksum s = some (format02X n) ∧ (format02X n).length = 2)
    ∧ get_checksum "" = some "00" := by
  refine ⟨fun n hn => ⟨?_, ?_, fun h => format02X_length_of_lt_256 _ h⟩, fun hascii => ?_, rfl⟩
  · simp [get_checksum, hn]
  · have h1 := checksumFold_some s.toList 0 n hn
    rw [h1, foldl_xor_eq_foldr]
    simp [xorFoldSpec, String.toList]
  · have h := checksumFold_ascii s.toList 0 (by norm_num) hascii
    have hE : checksumFoldE s = some (s.toList.foldl (fun x c => x ^^^ c.toNat) 0) := h.1
    refine ⟨s.toList.foldl (fun x c => x ^^^ c.toNat) 0, hE, h.2, ?_, ?_⟩
    · simp [get_checksum, hE]
    · exact format02X_length_of_lt_256 _ (by have := h.2; omega)

/-- **C7 (witness).** The amended theorem applied at `"GPGGA"` (loop
completes, fold 0x56) and its ASCII branch discharged there. -/
theorem get_checksum_amended_witness :
    checksumFoldE "GPGGA" = some 86
    ∧ get_checksum "GPGGA" = some (format02X 86)
    ∧ 86 = xorFoldSpec "GPGGA"
    ∧ (format02X 86).length = 2
    ∧ (∃ n, checksumFoldE "GPGGA" = some n ∧ n < 128
        ∧ get_checksum "GPGGA" = some (format02X n) ∧ (format02X n).length = 2)
    ∧ get_checksum "" = some "00" := by
  have h := get_checksum_amended "GPGGA"
  have h1 := h.1 86 (by decide)
  exact ⟨by decide, h1.1, h1.2.1, h1.2.2 (by decide), h.2.1 (by decide), h.2.2⟩

/-! ### C2 — last-write-wins upsert -/

/-- No pair of a store carries key `k` when `k` is not among the keys. -/
theorem filter_key_eq_nil (k : String) (l : Store) (h : k ∉ l.map Prod.fst) :
    l.filter (fun p => p.1 == k) = [] := by
  induction l with
  | nil => rfl
  | cons p rest ih =>
    simp only [List.map_cons, List.mem_cons, not_or] at h
    rw [List.filter_cons, if_neg (by simp [beq_iff_eq]; exact fun hc => h.1 hc.symm)]
    exact ih h.2

/-- The keys after an upsert: unchanged for an existing key, the new key
appended otherwise. -/
theorem keys_dictUpsert (k : String) (v : PositionEntry) (l : Store) :
    (dictUpsert k v l).map Prod.fst
      = if k ∈ l.map Prod.fst then l.map Prod.fst else l.map Prod.fst ++ [k] := by
  induction l with
  | nil => simp [dictUpsert]
  | cons p rest ih =>
    by_cases hk : p.1 = k
    · simp [dictUpsert, hk]
    · simp only [dictUpsert, if_neg hk, List.map_cons, ih, List.mem_cons]
      by_cases hmem : k ∈ rest.map Prod.fst
      · simp [hmem, hk]
      · rw [if_neg hmem, if_neg (by rintro (hh | hh); exacts [hk hh.symm, hmem hh]),
          List.cons_append]

/-- Upserting preserves key uniqueness. -/
theorem nodup_keys_dictUpsert (k : String) (v : PositionEntry) (l : Store)
    (h : (l.map Prod.fst).Nodup) : ((dictUpsert k v l).map Prod.fst).Nodup := by
  rw [keys_dictUpsert]
  by_cases hmem : k ∈ l.map Prod.fst
  · simpa [hmem]
  · simpa [hmem, List.nodup_append] using h

/-- On a store with unique keys, upserting `k` leaves exactly one pair with
key `k`, holding the new value. -/
theorem filter_dictUpsert (k : String) (v : PositionEntry) (l : Store)
    (h : (l.map Prod.fst).Nodup) :
    (dictUpsert k v l).filter (fun p => p.1 == k) = [(k, v)] := by
  induction l with
  | nil => simp [dictUpsert]
  | cons p rest ih =>
    simp only [List.map_cons, List.nodup_cons] at h
    by_cases hk : p.1 = k
    · rw [show dictUpsert k v (p :: rest) = (k, v) :: rest from by simp [dictUpsert, hk]]
      rw [List.filter_cons, if_pos (by simp)]
      rw [filter_key_eq_nil k rest (hk ▸ h.1)]
    · rw [show dictUpsert k v (p :: rest) = p :: dictUpsert k v rest from by
        simp [dictUpsert, hk]]
      rw [List.filter_cons, if_neg (by simp [beq_iff_eq, hk]), ih h.2]

/-- **C2.** Ingesting two valid rows with the same source, in file order,
leaves exactly one pair for that source in the store, holding the second
row's entry (all four fields).  No hypothesis relates the two timestamps:
the replacement is unconditional, so it happens in particular when the
second row's timestamp is the earlier one (last-write-wins). -/
theorem ingest_last_write_wins (r1 r2 : Row) (st : Store) (s : String)
    (h1 : r1.source = some s) (h2 : r2.source = some s)
    (hv1 : all_valid r1 = true) (hv2 : all_valid r2 = true)
    (hnd : (st.map Prod.fst).Nodup) :
    (refresh_dictionary_from_dire_wolf_csv_log_file [r1, r2] st).filter (fun p => p.1 == s)
        = [(s, entryOfRow r2)]
    ∧ ((refresh_dictionary_from_dire_wolf_csv_log_file [r1, r2] st).map Prod.fst).Nodup := by
  have hstep : refresh_dictionary_from_dire_wolf_csv_log_file [r1, r2] st
      = dictUpsert s (entryOfRow r2) (dictUpsert s (entryOfRow r1) st) := by
    unfold refresh_dictionary_from_dire_wolf_csv_log_file ingestRow
    simp [hv1, hv2, h1, h2]
  rw [hstep]
  have hnd1 := nodup_keys_dictUpsert s (entryOfRow r1) st hnd
  exact ⟨filter_dictUpsert s (entryOfRow r2) _ hnd1,
    nodup_keys_dictUpsert s (entryOfRow r2) _ hnd1⟩

/-- **C2 (witness).** The two concrete rows `rowDup1`, `rowDup2` share source
`"N0CALL"`; the second row's timestamp denotes the *earlier* instant, yet
after ingesting into the empty store the single `"N0CALL"` pair holds the
second row's entry (latitude `"33.2"`, longitude `"-112.2"`, the earlier
timestamp, and the stripped comment `"hi"`). -/
theorem ingest_last_write_wins_witness :
    (refresh_dictionary_from_dire_wolf_csv_log_file [rowDup1, rowDup2] []).filter
        (fun p => p.1 == "N0CALL") = [("N0CALL", entryOfRow rowDup2)]
    ∧ entryInstant ("N0CALL", entryOfRow rowDup2) < entryInstant ("N0CALL", entryOfRow rowDup1)
    ∧ entryOfRow rowDup2
        = ⟨"2024-01-01T00:00:00Z", "N0CALL", "33.2", "-112.2", "hi"⟩ := by
  have h := ingest_last_write_wins rowDup1 rowDup2 [] "N0CALL" rfl rfl
    (by decide) (by decide) (by decide)
  exact ⟨h.1, by decide, by decide⟩

/-! ### C3 — eviction -/

/-- **C3.** For every store whose timestamps all parse to timezone-aware
datetimes and every UTC instant `now`: with a configured removal threshold of
`thr` minutes, eviction succeeds and keeps (in order) exactly the entries
with `timestamp + thr minutes >= now`, removing exactly those with
`timestamp + thr minutes < now`; with the threshold disabled (`None`),
eviction succeeds and returns the store unchanged, so the store never
shrinks in that mode. -/
theorem evict_exact (now : Int) (store : Store)
    (h : ∀ p ∈ store, parsedAware p = true) :
    (∀ thr : Int, remove_stale_entries_from_dictionary (some thr) now store
        = .ok (store.filter (fun p => !decide (entryInstant p + thr * 60000000 < now))))
    ∧ remove_stale_entries_from_dictionary none now store = .ok store := by
  induction store with
  | nil => exact ⟨fun _ => rfl, rfl⟩
  | cons p rest ih =>
    have hp : parsedAware p = true := h p (List.mem_cons_self p rest)
    obtain ⟨ih1, ih2⟩ := ih (fun q hq => h q (List.mem_cons_of_mem p hq))
    unfold parsedAware at hp
    rcases hdt : parseEntryTime p.2 with _ | dt
    · rw [hdt] at hp; cases hp
    · rw [hdt] at hp
      have hp' : dt.aware = true := hp
      have hinst : entryInstant p = dt.instant := by unfold entryInstant; rw [hdt]
      constructor
      · intro thr
        rw [show remove_stale_entries_from_dictionary (some thr) now (p :: rest)
            = (remove_stale_entries_from_dictionary (some thr) now rest).map
                (fun r => if dt.instant + thr * 60000000 < now then r else p :: r) from by
          simp only [remove_stale_entries_from_dictionary, hdt, hp', if_true]]
        rw [ih1 thr, List.filter_cons]
        by_cases hc : dt.instant + thr * 60000000 < now
        · simp [Except.map, hc, hinst]
        · simp [Except.map, hc, hinst]
      · rw [show remove_stale_entries_from_dictionary none now (p :: rest)
            = (remove_stale_entries_from_dictionary none now rest).map (p :: ·) from by
          simp only [remove_stale_entries_from_dictionary, hdt]]
        rw [ih2]
        rfl

/-- **C3 (witness).** At `now = 2024-01-01T01:01:00Z`, under a 60-minute
removal threshold, the entry aged 61 minutes is evicted and the entry aged
59 minutes remains; with the threshold disabled the two-entry store is
returned unchanged. -/
theorem evict_exact_witness :
    remove_stale_entries_from_dictionary (some 60) nowEvict
        [("A61", entryAged61), ("B59", entryAged59)] = .ok [("B59", entryAged59)]
    ∧ remove_stale_entries_from_dictionary none nowEvict
        [("A61", entryAged61), ("B59", entryAged59)]
        = .ok [("A61", entryAged61), ("B59", entryAged59)] := by
  have h := evict_exact nowEvict [("A61", entryAged61), ("B59", entryAged59)] (by decide)
  refine ⟨?_, h.2⟩
  rw [h.1 60]
  rfl

/-! ### C9 — activity classification -/

/-- **C9.** For an entry whose timestamp parses to an aware instant: under a
configured inactivity threshold of `m` minutes the serializer classifies it
inactive exactly when `timestamp + m minutes < now`, and writes its line with
the inactive icon path in that case and the active icon path otherwise; with
the threshold disabled (`None`) the entry always classifies active and the
line always carries the active icon path. -/
theorem classify_inactivity (now : Int) (showC : Bool) (e : PositionEntry) (dt : PyDateTime)
    (hdt : parseEntryTime e = some dt) (haw : dt.aware = true) :
    (∀ m : Int,
      (is_inactive (some m) now dt = .ok true ↔ dt.instant + m * 60000000 < now)
      ∧ renderEntry (some m) showC now e
          = .ok (poiLine e
              (if dt.instant + m * 60000000 < now then NAVIT_POI_INACTIVE_ICON_FILE_PATH
               else NAVIT_POI_ACTIVE_ICON_FILE_PATH) showC))
    ∧ is_inactive none now dt = .ok false
    ∧ renderEntry none showC now e = .ok (poiLine e NAVIT_POI_ACTIVE_ICON_FILE_PATH showC) := by
  refine ⟨fun m => ⟨?_, ?_⟩, rfl, ?_⟩
  · simp [is_inactive, haw]
  · simp only [renderEntry, hdt, is_inactive, haw, if_true]
    by_cases hc : dt.instant + m * 60000000 < now
    · simp [hc]
    · simp [hc]
  · simp [renderEntry, hdt, is_inactive]

/-- **C9 (witness).** An entry aged 6 minutes under a 5-minute inactivity
threshold is classified inactive and rendered with the inactive icon path;
under a disabled threshold it is rendered with the active icon path. -/
theorem classify_inactivity_witness :
    is_inactive (some 5) nowSix ⟨true, 63866102400000000⟩ = .ok true
    ∧ renderEntry (some 5) true nowSix entryAged6
        = .ok (poiLine entryAged6 NAVIT_POI_INACTIVE_ICON_FILE_PATH true)
    ∧ renderEntry none true nowSix entryAged6
        = .ok (poiLine entryAged6 NAVIT_POI_ACTIVE_ICON_FILE_PATH true) := by
  have h := classify_inactivity nowSix true entryAged6 ⟨true, 63866102400000000⟩
    (by decide) rfl
  refine ⟨(h.1 5).1.mpr (by decide), ?_, h.2.2⟩
  have h2 := (h.1 5).2
  rwa [if_pos (by decide)] at h2

/-! ### C5 — serializer ordering -/

/-- Python string comparison is reflexive. -/
theorem charListLe_refl : ∀ l : List Char, charListLe l l = true
  | [] => rfl
  | a :: as => by simp [charListLe, charListLe_refl as]

/-- Python string comparison is total. -/
theorem charListLe_total (a b : List Char) :
    charListLe a b = true ∨ charListLe b a = true := by
  induction a generalizing b with
  | nil => exact Or.inl rfl
  | cons x xs ih =>
    cases b with
    | nil => exact Or.inr rfl
    | cons y ys =>
      rcases Nat.lt_trichotomy x.toNat y.toNat with h | h | h
      · exact Or.inl (by simp [charListLe, h])
      · rcases ih ys with h1 | h1
        · exact Or.inl (by simp [charListLe, h, Nat.lt_irrefl, h1])
        · exact Or.inr (by simp [charListLe, h, Nat.lt_irrefl, h1])
      · exact Or.inr (by simp [charListLe, h])

/-- Python string comparison is transitive. -/
theorem charListLe_trans : ∀ a b c : List Char,
    charListLe a b = true → charListLe b c = true → charListLe a c = true
  | [], _, _, _, _ => rfl
  | _ :: _, [], _, hab, _ => by simp [charListLe] at hab
  | _ :: _, _ :: _, [], _, hbc => by simp [charListLe] at hbc
  | x :: xs, y :: ys, z :: zs, hab, hbc => by
    simp only [charListLe] at hab hbc ⊢
    rcases Nat.lt_trichotomy x.toNat y.toNat with h1 | h1 | h1
    · rcases Nat.lt_trichotomy y.toNat z.toNat with h2 | h2 | h2
      · rw [if_pos (by omega)]
      · rw [if_pos (by omega)]
      · rw [if_neg (by omega), if_pos h2] at hbc
        cases hbc
    · rcases Nat.lt_trichotomy y.toNat z.toNat with h2 | h2 | h2
      · rw [if_pos (by omega)]
      · rw [if_neg (by omega), if_neg (by omega)] at hab
        rw [if_neg (by omega), if_neg (by omega)] at hbc
        rw [if_neg (by omega), if_neg (by omega)]
        exact charListLe_trans xs ys zs hab hbc
      · rw [if_neg (by omega), if_pos h2] at hbc
        cases hbc
    · rw [if_neg (by omega), if_pos h1] at hab
      cases hab

instance : IsTotal PositionEntry isoDesc :=
  ⟨fun a b => charListLe_total b.isotime.toList a.isotime.toList⟩

instance : IsTrans PositionEntry isoDesc :=
  ⟨fun _ b _ hab hbc => charListLe_trans _ b.isotime.toList _ hbc hab⟩

/-- Inserting `a` into a list puts it in front of every element with the same
key, and does not disturb the relative order of the others: the filter at any
key is preserved (with `a` in front when it carries that key). -/
theorem filter_orderedInsert (k : String) (a : PositionEntry) (l : List PositionEntry) :
    (List.orderedInsert isoDesc a l).filter (fun e => e.isotime == k)
      = if a.isotime == k then a :: l.filter (fun e => e.isotime == k)
        else l.filter (fun e => e.isotime == k) := by
  induction l with
  | nil =>
    cases h : (a.isotime == k) <;> simp [List.orderedInsert, h]
  | cons b l ih =>
    by_cases hr : isoDesc a b
    · rw [List.orderedInsert, if_pos hr]
      cases h : (a.isotime == k) <;> simp [List.filter_cons, h]
    · rw [List.orderedInsert, if_neg hr, List.filter_cons]
      by_cases hb : (b.isotime == k) = true
      · have hak : (a.isotime == k) = false := by
          rcases hc : (a.isotime == k) with _ | _
          · rfl
          · exfalso
            apply hr
            have h1 : a.isotime = k := by simpa [beq_iff_eq] using hc
            have h2 : b.isotime = k := by simpa [beq_iff_eq] using hb
            show pyStrLe b.isotime a.isotime = true
            rw [h1, h2]
            exact charListLe_refl _
        rw [if_pos hb, ih, hak]
        simp [List.filter_cons, hb]
      · rw [if_neg hb, ih]
        cases h : (a.isotime == k) <;> simp [List.filter_cons, h, hb]

/-- Stability of the serializer's sort: for every key value, the entries
carrying that key appear in the sorted list in their original order. -/
theorem filter_insertionSort (k : String) (l : List PositionEntry) :
    (List.insertionSort isoDesc l).filter (fun e => e.isotime == k)
      = l.filter (fun e => e.isotime == k) := by
  induction l with
  | nil => rfl
  | cons a l ih =>
    rw [List.insertionSort, filter_orderedInsert, ih, List.filter_cons]

/-- `renderEntry` succeeds, producing `lineOf`, on any entry whose timestamp
parses (and is aware when an inactivity threshold is configured). -/
theorem renderEntry_ok (thr : Option Int) (showC : Bool) (now : Int) (e : PositionEntry)
    (h : renderOk thr e = true) :
    renderEntry thr showC now e = .ok (lineOf thr showC now e) := by
  unfold renderOk at h
  rcases hdt : parseEntryTime e with _ | dt
  · rw [hdt] at h; cases h
  · rw [hdt] at h
    cases thr with
    | none => simp [renderEntry, lineOf, is_inactive, hdt]
    | some m =>
      have haw : dt.aware = true := by simpa using h
      simp [renderEntry, lineOf, is_inactive, hdt, haw]

/-- The serializer loop succeeds on a list of renderable entries, producing
one line per entry in list order. -/
theorem renderEntries_ok (thr : Option Int) (showC : Bool) (now : Int)
    (l : List PositionEntry) (h : ∀ e ∈ l, renderOk thr e = true) :
    renderEntries thr showC now l = .ok (l.map (lineOf thr showC now)) := by
  induction l with
  | nil => rfl
  | cons e l ih =>
    have he := renderEntry_ok thr showC now e (h e (List.mem_cons_self e l))
    have hrest := ih (fun q hq => h q (List.mem_cons_of_mem e hq))
    simp [renderEntries, he, hrest, Except.map]

/-- **C5 (counterexample).** The claim orders entries by the *instant* the
timestamp denotes, descending.  The code sorts by the raw `isotime` *string*
(line 149).  On `sortStore`, whose first entry is written with a `+06:00`
offset, the rendered file puts the lexicographically larger string first even
though it denotes the strictly *earlier* instant — so the first emitted line
is not the most recent entry. -/
theorem render_instant_order_counterexample :
    refresh_navit_poi_file_from_dictionary none true 0 sortStore
        = .ok [poiLine entrySortA NAVIT_POI_ACTIVE_ICON_FILE_PATH true,
            poiLine entrySortB NAVIT_POI_ACTIVE_ICON_FILE_PATH true]
    ∧ entryInstant ("STNA", entrySortA) < entryInstant ("STNB", entrySortB) := by
  exact ⟨rfl, by decide⟩

/-- **C5 (amended).** For every store whose entries all carry parseable
timestamps (aware when an inactivity threshold is configured), the serializer
emits exactly one line per entry, ordered by the raw `isotime` *string*
descending — which coincides with instant order only when all timestamps
share one fixed-width UTC format — and the sort is stable: entries with equal
timestamp strings keep their relative store order. -/
theorem render_sorted (thr : Option Int) (showC : Bool) (now : Int) (store : Store)
    (h : ∀ e ∈ store.map Prod.snd, renderOk thr e = true) :
    refresh_navit_poi_file_from_dictionary thr showC now store
        = .ok ((List.insertionSort isoDesc (store.map Prod.snd)).map (lineOf thr showC now))
    ∧ (List.insertionSort isoDesc (store.map Prod.snd)).Perm (store.map Prod.snd)
    ∧ List.Sorted isoDesc (List.insertionSort isoDesc (store.map Prod.snd))
    ∧ ∀ k : String,
        (List.insertionSort isoDesc (store.map Prod.snd)).filter (fun e => e.isotime == k)
          = (store.map Prod.snd).filter (fun e => e.isotime == k) := by
  refine ⟨?_, List.perm_insertionSort _ _, List.sorted_insertionSort _ _,
    fun k => filter_insertionSort k _⟩
  unfold refresh_navit_poi_file_from_dictionary
  exact renderEntries_ok _ _ _ _
    (fun e he => h e ((List.perm_insertionSort isoDesc _).mem_iff.mp he))

/-- **C5 (amended, witness).** The amended theorem applied to the concrete
two-entry store. -/
theorem render_sorted_witness :
    refresh_navit_poi_file_from_dictionary none true 0 sortStore
        = .ok ((List.insertionSort isoDesc (sortStore.map Prod.snd)).map (lineOf none true 0))
    ∧ (List.insertionSort isoDesc (sortStore.map Prod.snd)).Perm (sortStore.map Prod.snd)
    ∧ List.Sorted isoDesc (List.insertionSort isoDesc (sortStore.map Prod.snd))
    ∧ (List.insertionSort isoDesc (sortStore.map Prod.snd)).filter
          (fun e => e.isotime == "2024-01-01T00:00:00Z")
        = (sortStore.map Prod.snd).filter (fun e => e.isotime == "2024-01-01T00:00:00Z") := by
  have h := render_sorted none true 0 sortStore (by decide)
  exact ⟨h.1, h.2.1, h.2.2.1, h.2.2.2 "2024-01-01T00:00:00Z"⟩

/-! ### C4 — no write-then-replace -/

/-- **C4.** The claim asserts write-then-replace semantics: a failure
mid-serialization leaves the previously written valid POI file observable.
The code opens the POI file with mode `w+` (line 146), truncating it in
place, and then writes one line per entry; a failure after `k` writes leaves
the file holding exactly the first `k` new lines.  Evaluating the model on a
two-entry store and a non-empty prior file: failing before the first write
leaves an empty file, and failing after one write leaves a single line —
both observable states differ from the prior valid content *and* from the
complete new content, so a half-written file is observable and the prior
contents are lost.  The spec lists this atomicity as a required robustness
property of the serializer (and §5 claims the rewrite never corrupts the
file), so the claim is the intent and the truncate-in-place write is the
bug. -/
theorem poi_write_truncates_in_place :
    refresh_navit_poi_file_from_dictionary none true 0 sortStore
        = .ok [poiLine entrySortA NAVIT_POI_ACTIVE_ICON_FILE_PATH true,
            poiLine entrySortB NAVIT_POI_ACTIVE_ICON_FILE_PATH true]
    ∧ fileAfterPartialWrite priorPoiContent
        [poiLine entrySortA NAVIT_POI_ACTIVE_ICON_FILE_PATH true,
         poiLine entrySortB NAVIT_POI_ACTIVE_ICON_FILE_PATH true] 0 = ""
    ∧ fileAfterPartialWrite priorPoiContent
        [poiLine entrySortA NAVIT_POI_ACTIVE_ICON_FILE_PATH true,
         poiLine entrySortB NAVIT_POI_ACTIVE_ICON_FILE_PATH true] 1
        = poiLine entrySortA NAVIT_POI_ACTIVE_ICON_FILE_PATH true
    ∧ priorPoiContent ≠ ""
    ∧ poiLine entrySortA NAVIT_POI_ACTIVE_ICON_FILE_PATH true ≠ priorPoiContent
    ∧ poiLine entrySortA NAVIT_POI_ACTIVE_ICON_FILE_PATH true
        ≠ String.join [poiLine entrySortA NAVIT_POI_ACTIVE_ICON_FILE_PATH true,
            poiLine entrySortB NAVIT_POI_ACTIVE_ICON_FILE_PATH true] := by
  refine ⟨rfl, rfl, ?_, by decide, by decide, by decide⟩
  show String.join [poiLine entrySortA NAVIT_POI_ACTIVE_ICON_FILE_PATH true] = _
  simp [String.join]

/-! ### C10 — stored timestamps always parse -/

/-- Membership after an upsert: a pair is the upserted one or was already
present. -/
theorem mem_dictUpsert (k : String) (v : PositionEntry) (l : Store)
    (p : String × PositionEntry) (h : p ∈ dictUpsert k v l) : p = (k, v) ∨ p ∈ l := by
  induction l with
  | nil => simpa [dictUpsert] using h
  | cons q rest ih =>
    by_cases hk : q.1 = k
    · rw [dictUpsert, if_pos hk] at h
      rcases List.mem_cons.mp h with h1 | h1
      · exact Or.inl h1
      · exact Or.inr (List.mem_cons_of_mem q h1)
    · rw [dictUpsert, if_neg hk] at h
      rcases List.mem_cons.mp h with h1 | h1
      · exact Or.inr (h1 ▸ List.mem_cons_self q rest)
      · rcases ih h1 with h2 | h2
        · exact Or.inl h2
        · exact Or.inr (List.mem_cons_of_mem q h2)

/-- A validated row's entry carries a validator-approved timestamp. -/
theorem entryOfRow_isotime_valid (r : Row) (h : all_valid r = true) :
    iso_string_valid (entryOfRow r).isotime = true := by
  have hv : valid_isotime r = true := by
    unfold all_valid at h
    simp only [Bool.and_eq_true] at h
    exact h.2
  unfold valid_isotime at hv
  rcases hs : r.isotime with _ | t
  · rw [hs] at hv; cases hv
  · rw [hs] at hv
    show iso_string_valid ((entryOfRow r).isotime) = true
    have : (entryOfRow r).isotime = t := by simp [entryOfRow, hs]
    rw [this]
    exact hv

/-- Ingestion preserves "every stored timestamp is validator-approved":
every new entry passed `iso_string_valid`. -/
theorem ingest_preserves_validity (rows : List Row) (s : Store)
    (h : ∀ p ∈ s, iso_string_valid p.2.isotime = true) :
    ∀ p ∈ refresh_dictionary_from_dire_wolf_csv_log_file rows s,
      iso_string_valid p.2.isotime = true := by
  induction rows generalizing s with
  | nil => exact h
  | cons r rows ih =>
    refine ih (ingestRow s r) ?_
    intro p hp
    unfold ingestRow at hp
    by_cases hv : all_valid r = true
    · rw [if_pos hv] at hp
      rcases mem_dictUpsert _ _ _ _ hp with h1 | h1
      · rw [h1]
        exact entryOfRow_isotime_valid r hv
      · exact h p h1
    · rw [if_neg hv] at hp
      exact h p hp

/-- Successful eviction only deletes entries: everything kept was present. -/
theorem evict_subset (thr : Option Int) (now : Int) : ∀ (s s' : Store),
    remove_stale_entries_from_dictionary thr now s = .ok s' → ∀ p ∈ s', p ∈ s := by
  intro s
  induction s with
  | nil =>
    intro s' hs' p hp
    cases hs'
    exact hp
  | cons q rest ih =>
    intro s' hs' p hp
    rcases hdt : parseEntryTime q.2 with _ | dt
    · rw [show remove_stale_entries_from_dictionary thr now (q :: rest) = .error parseErrorMsg
          from by cases thr <;> simp [remove_stale_entries_from_dictionary, hdt]] at hs'
      cases hs'
    · cases thr with
      | none =>
        rw [show remove_stale_entries_from_dictionary none now (q :: rest)
            = (remove_stale_entries_from_dictionary none now rest).map (q :: ·) from by
          simp [remove_stale_entries_from_dictionary, hdt]] at hs'
        rcases hr : remove_stale_entries_from_dictionary none now rest with msg | r
        · rw [hr] at hs'
          simp [Except.map] at hs'
        · rw [hr] at hs'
          simp only [Except.map] at hs'
          injection hs' with hs2
          subst hs2
          rcases List.mem_cons.mp hp with h1 | h1
          · exact h1 ▸ List.mem_cons_self q rest
          · exact List.mem_cons_of_mem q (ih r hr p h1)
      | some m =>
        by_cases haw : dt.aware = true
        · rw [show remove_stale_entries_from_dictionary (some m) now (q :: rest)
              = (remove_stale_entries_from_dictionary (some m) now rest).map
                  (fun r => if dt.instant + m * 60000000 < now then r else q :: r) from by
            simp [remove_stale_entries_from_dictionary, hdt, haw]] at hs'
          rcases hr : remove_stale_entries_from_dictionary (some m) now rest with msg | r
          · rw [hr] at hs'
            simp [Except.map] at hs'
          · rw [hr] at hs'
            simp only [Except.map] at hs'
            injection hs' with hs2
            subst hs2
            by_cases hc : dt.instant + m * 60000000 < now
            · rw [if_pos hc] at hp
              exact List.mem_cons_of_mem q (ih r hr p hp)
            · rw [if_neg hc] at hp
              rcases List.mem_cons.mp hp with h1 | h1
              · exact h1 ▸ List.mem_cons_self q rest
              · exact List.mem_cons_of_mem q (ih r hr p h1)
        · rw [show remove_stale_entries_from_dictionary (some m) now (q :: rest)
              = .error naiveCompareErrorMsg from by
            simp [remove_stale_entries_from_dictionary, hdt, haw]] at hs'
          cases hs'

/-- Every reachable store carries only validator-approved timestamps. -/
theorem reachable_validity (s : Store) (h : Reachable s) :
    ∀ p ∈ s, iso_string_valid p.2.isotime = true := by
  induction h with
  | empty => intro p hp; cases hp
  | ingest rows s _ ih => exact ingest_preserves_validity rows s ih
  | evict thr now s s' _ hok ih =>
    intro p hp
    exact ih p (evict_subset thr now s s' hok p hp)

/-- Eviction signals an unparsable timestamp only when the store really holds
one. -/
theorem evict_parse_error (thr : Option Int) (now : Int) : ∀ s : Store,
    remove_stale_entries_from_dictionary thr now s = .error parseErrorMsg →
      ∃ p ∈ s, parseEntryTime p.2 = none := by
  intro s
  induction s with
  | nil =>
    intro hs
    cases hs
  | cons q rest ih =>
    intro hs
    rcases hdt : parseEntryTime q.2 with _ | dt
    · exact ⟨q, List.mem_cons_self q rest, hdt⟩
    · have hrec : remove_stale_entries_from_dictionary thr now rest = .error parseErrorMsg := by
        cases thr with
        | none =>
          rw [show remove_stale_entries_from_dictionary none now (q :: rest)
              = (remove_stale_entries_from_dictionary none now rest).map (q :: ·) from by
            simp [remove_stale_entries_from_dictionary, hdt]] at hs
          rcases hr : remove_stale_entries_from_dictionary none now rest with msg | r
          · rw [hr] at hs
            simp only [Except.map] at hs
            injection hs with hs2
            subst hs2
            rfl
          · rw [hr] at hs
            simp [Except.map] at hs
        | some m =>
          by_cases haw : dt.aware = true
          · rw [show remove_stale_entries_from_dictionary (some m) now (q :: rest)
                = (remove_stale_entries_from_dictionary (some m) now rest).map
                    (fun r => if dt.instant + m * 60000000 < now then r else q :: r) from by
              simp [remove_stale_entries_from_dictionary, hdt, haw]] at hs
            rcases hr : remove_stale_entries_from_dictionary (some m) now rest with msg | r
            · rw [hr] at hs
              simp only [Except.map] at hs
              injection hs with hs2
              subst hs2
              rfl
            · rw [hr] at hs
              simp [Except.map] at hs
          · rw [show remove_stale_entries_from_dictionary (some m) now (q :: rest)
                = .error naiveCompareErrorMsg from by
              simp [remove_stale_entries_from_dictionary, hdt, haw]] at hs
            injection hs with hs2
            exact absurd hs2 (by decide)
      rcases ih hrec with ⟨p, hp, hnone⟩
      exact ⟨p, List.mem_cons_of_mem q hp, hnone⟩

/-- The serializer signals an unparsable timestamp only when its input list
really holds one. -/
theorem renderEntries_parse_error (thr : Option Int) (showC : Bool) (now : Int) :
    ∀ l : List PositionEntry,
      renderEntries thr showC now l = .error parseErrorMsg →
        ∃ e ∈ l, parseEntryTime e = none := by
  intro l
  induction l with
  | nil =>
    intro hl
    cases hl
  | cons e rest ih =>
    intro hl
    rcases hdt : parseEntryTime e with _ | dt
    · exact ⟨e, List.mem_cons_self e rest, hdt⟩
    · have hrec : renderEntries thr showC now rest = .error parseErrorMsg := by
        rw [renderEntries] at hl
        rcases hre : renderEntry thr showC now e with msg | line
        · rw [hre] at hl
          injection hl with hmsg
          subst hmsg
          exfalso
          unfold renderEntry at hre
          rw [hdt] at hre
          cases thr with
          | none => simp [is_inactive] at hre
          | some m =>
            by_cases haw : dt.aware = true
            · simp [is_inactive, haw] at hre
            · simp [is_inactive, haw] at hre
              exact absurd hre (by decide)
        · rw [hre] at hl
          rcases hr : renderEntries thr showC now rest with msg | lines
          · rw [hr] at hl
            simp only [Except.map] at hl
            injection hl with hmsg
            subst hmsg
            rfl
          · rw [hr] at hl
            simp [Except.map] at hl
      rcases ih hrec with ⟨q, hq, hnone⟩
      exact ⟨q, List.mem_cons_of_mem e hq, hnone⟩

/-- **C10.** Every store reachable from the empty store by ingestion and
eviction holds only entries whose timestamp string, after the
`Z → +00:00` substitution, `fromisoformat` accepts; consequently the
timestamp parse inside eviction (line 229) and inside serialization
(line 155) succeeds for every stored entry, and the unparsable-timestamp
error is unreachable from both. -/
theorem reachable_timestamps_parse (s : Store) (h : Reachable s) :
    (∀ p ∈ s, iso_string_valid p.2.isotime = true
      ∧ (parseEntryTime p.2).isSome = true)
    ∧ (∀ thr now, remove_stale_entries_from_dictionary thr now s ≠ .error parseErrorMsg)
    ∧ (∀ thr showC now,
        refresh_navit_poi_file_from_dictionary thr showC now s ≠ .error parseErrorMsg) := by
  have hval := reachable_validity s h
  have hparse : ∀ p ∈ s, (parseEntryTime p.2).isSome = true := by
    intro p hp
    have hv := hval p hp
    unfold iso_string_valid at hv
    exact hv
  refine ⟨fun p hp => ⟨hval p hp, hparse p hp⟩, ?_, ?_⟩
  · intro thr now hc
    rcases evict_parse_error thr now s hc with ⟨p, hp, hnone⟩
    have hp2 := hparse p hp
    rw [hnone] at hp2
    cases hp2
  · intro thr showC now hc
    rcases renderEntries_parse_error thr showC now _ hc with ⟨e, he, hnone⟩
    have he' : e ∈ s.map Prod.snd := (List.perm_insertionSort isoDesc _).mem_iff.mp he
    rcases List.mem_map.mp he' with ⟨p, hp, hpe⟩
    have hp2 := hparse p hp
    rw [hpe, hnone] at hp2
    cases hp2

/-- **C10 (witness).** The theorem applied to the store reached by ingesting
one valid row into the empty store. -/
theorem reachable_timestamps_parse_witness :
    remove_stale_entries_from_dictionary (some 60) nowEvict
        (refresh_dictionary_from_dire_wolf_csv_log_file [rowDup1] []) ≠ .error parseErrorMsg
    ∧ refresh_navit_poi_file_from_dictionary (some 5) true nowEvict
        (refresh_dictionary_from_dire_wolf_csv_log_file [rowDup1] []) ≠ .error parseErrorMsg := by
  have h := reachable_timestamps_parse
    (refresh_dictionary_from_dire_wolf_csv_log_file [rowDup1] [])
    (Reachable.ingest [rowDup1] [] Reachable.empty)
  exact ⟨h.2.1 (some 60) nowEvict, h.2.2 (some 5) true nowEvict⟩

/-! ### C8 — coordinate encoding -/

/-- The fractional-minutes block always prints exactly six digits. -/
theorem pad6_length (n : Nat) : (pad6 n).length = 6 := rfl

/-- The minutes fraction of any coordinate lies in `[0, 1)`. -/
theorem minutesFrac_bounds (x : ℚ) : 0 ≤ minutesFrac x ∧ minutesFrac x < 1 := by
  unfold minutesFrac
  constructor
  · have := Int.floor_le |x|
    linarith
  · have := Int.lt_floor_add_one |x|
    linarith

/-- A value in `[0, 60)` prints under `09.6f` as exactly nine characters:
two (zero-padded) integer digits, the decimal point, six fractional digits. -/
theorem format09_6f_length (v : ℚ) (h0 : 0 ≤ v) (h60 : v < 60) :
    (format09_6f v).length = 9 := by
  have hceil : scaled6 v / 1000000 < 100 := by
    have hz : v * 1000000 + 1 / 2 < 60000001 := by linarith
    have h1 : ⌊v * 1000000 + 1 / 2⌋ < 60000001 :=
      Int.floor_lt.mpr (by exact_mod_cast hz)
    unfold scaled6
    omega
  unfold format09_6f
  rw [String.length_append, String.length_append, pad6_length]
  simp only [intPart09]
  rw [if_pos hceil]
  rfl

/-- The conceptual decode of the printed components recovers the unsigned
coordinate to within half a unit of the sixth fractional minute digit. -/
theorem decode_close_abs (u : ℚ) (h0 : 0 ≤ u) :
    |(((⌊u⌋).toNat : ℚ) + ((scaled6 ((u - ⌊u⌋) * 60) : ℕ) : ℚ) / 1000000 / 60) - u|
      ≤ 1 / 120000000 := by
  have hfl0 : 0 ≤ ⌊u⌋ := Int.floor_nonneg.mpr h0
  have hdcast : (((⌊u⌋).toNat : ℕ) : ℚ) = ((⌊u⌋ : ℤ) : ℚ) := by
    exact_mod_cast congrArg (fun z : ℤ => (z : ℚ)) (Int.toNat_of_nonneg hfl0)
  have hf0 : 0 ≤ u - ⌊u⌋ := by
    have := Int.floor_le u
    linarith
  have hz0 : 0 ≤ (u - ⌊u⌋) * 60 * 1000000 + 1 / 2 := by
    have h1 : 0 ≤ (u - ⌊u⌋) * 60 * 1000000 := by
      have := mul_nonneg (mul_nonneg hf0 (by norm_num : (0:ℚ) ≤ 60))
        (by norm_num : (0:ℚ) ≤ 1000000)
      linarith
    linarith
  have hncast : ((scaled6 ((u - ⌊u⌋) * 60) : ℕ) : ℚ)
      = ((⌊(u - ⌊u⌋) * 60 * 1000000 + 1 / 2⌋ : ℤ) : ℚ) := by
    unfold scaled6
    exact_mod_cast congrArg (fun z : ℤ => (z : ℚ))
      (Int.toNat_of_nonneg (Int.floor_nonneg.mpr hz0))
  have hb1 : ((⌊(u - ⌊u⌋) * 60 * 1000000 + 1 / 2⌋ : ℤ) : ℚ)
      ≤ (u - ⌊u⌋) * 60 * 1000000 + 1 / 2 := Int.floor_le _
  have hb2 : (u - ⌊u⌋) * 60 * 1000000 + 1 / 2 - 1
      < ((⌊(u - ⌊u⌋) * 60 * 1000000 + 1 / 2⌋ : ℤ) : ℚ) := Int.sub_one_lt_floor _
  rw [hdcast, hncast, abs_le]
  constructor
  · linarith
  · linarith

/-- The decode error bound holds for every coordinate, signed. -/
theorem decode_close (x : ℚ) : |decodeConceptually x - x| ≤ 1 / 120000000 := by
  have habs := decode_close_abs |x| (abs_nonneg x)
  by_cases hneg : x < 0
  · have hdec : decodeConceptually x
        = -(((⌊|x|⌋).toNat : ℚ)
            + ((scaled6 ((|x| - ⌊|x|⌋) * 60) : ℕ) : ℚ) / 1000000 / 60) := by
      unfold decodeConceptually minutesFrac
      rw [if_pos hneg]
      ring
    rw [hdec]
    rw [abs_of_neg hneg] at habs ⊢
    set A : ℚ := ((⌊-x⌋ : ℤ).toNat : ℚ)
      + ((scaled6 ((-x - ⌊-x⌋) * 60) : ℕ) : ℚ) / 1000000 / 60 with hA
    rw [show -A - x = -(A - -x) from by ring, abs_neg]
    exact habs
  · have hdec : decodeConceptually x
        = ((⌊|x|⌋).toNat : ℚ) + ((scaled6 ((|x| - ⌊|x|⌋) * 60) : ℕ) : ℚ) / 1000000 / 60 := by
      unfold decodeConceptually minutesFrac
      rw [if_neg hneg]
      ring
    rw [hdec]
    rw [abs_of_nonneg (not_lt.mp hneg)] at habs ⊢
    exact habs

/-- **C8.** For every latitude in (−90, 90) and longitude in (−180, 180):
the encoders emit integer degrees, then the minutes under format `09.6f` —
exactly nine characters, six of them fractional digits — then a comma and the
hemisphere letter (`S` exactly when the latitude is negative, `W` exactly
when the longitude is negative); and conceptually decoding the printed
components (`degrees + minutes/60`, re-signed by hemisphere) recovers the
input to within half a unit in the sixth fractional minute digit
(`1/120000000` of a degree).  (Stated over exact rationals; the bounds
hypotheses mirror the claim — the format and decode facts do not depend on
them.) -/
theorem nmea_coordinate_encoding (x y : ℚ)
    (hx1 : -90 < x) (hx2 : x < 90) (hy1 : -180 < y) (hy2 : y < 180) :
    convert_latitude_to_nmea_format x
        = degreesStr x ++ format09_6f (minutesFrac x * 60) ++ ","
            ++ (if x < 0 then "S" else "N")
    ∧ (format09_6f (minutesFrac x * 60)).length = 9
    ∧ |decodeConceptually x - x| ≤ 1 / 120000000
    ∧ convert_longitude_to_nmea_format y
        = degreesStr y ++ format09_6f (minutesFrac y * 60) ++ ","
            ++ (if y < 0 then "W" else "E")
    ∧ (format09_6f (minutesFrac y * 60)).length = 9
    ∧ |decodeConceptually y - y| ≤ 1 / 120000000 := by
  obtain ⟨hx0, hxlt⟩ := minutesFrac_bounds x
  obtain ⟨hy0, hylt⟩ := minutesFrac_bounds y
  refine ⟨rfl, ?_, decode_close x, rfl, ?_, decode_close y⟩
  · exact format09_6f_length _ (by linarith) (by linarith)
  · exact format09_6f_length _ (by linarith) (by linarith)

/-- **C8 (witness).** The theorem applied at the configured map center
(latitude 33.435, longitude −112.00833334), with the encoders evaluated. -/
theorem nmea_coordinate_encoding_witness :
    (-90 < (33.435 : ℚ)) ∧ ((33.435 : ℚ) < 90)
    ∧ (-180 < (-112.00833334 : ℚ)) ∧ ((-112.00833334 : ℚ) < 180)
    ∧ (format09_6f (minutesFrac (33.435 : ℚ) * 60)).length = 9
    ∧ |decodeConceptually (33.435 : ℚ) - 33.435| ≤ 1 / 120000000
    ∧ (format09_6f (minutesFrac (-112.00833334 : ℚ) * 60)).length = 9
    ∧ |decodeConceptually (-112.00833334 : ℚ) - -112.00833334| ≤ 1 / 120000000 := by
  have h := nmea_coordinate_encoding 33.435 (-112.00833334)
    (by norm_num) (by norm_num) (by norm_num) (by norm_num)
  exact ⟨by norm_num, by norm_num, by norm_num, by norm_num,
    h.2.1, h.2.2.1, h.2.2.2.2.1, h.2.2.2.2.2⟩

/-! ### C6 — the mock GPS sentence -/

/-- Evaluation of the latitude encoder at the configured map center. -/
theorem latitude_of_map_center :
    convert_latitude_to_nmea_format LATITUDE = "3326.100000,N" := by
  have habs : |LATITUDE| = 33.435 := by
    rw [abs_of_nonneg (show (0:ℚ) ≤ LATITUDE by norm_num [LATITUDE])]
    rfl
  have hfl : ⌊(33.435 : ℚ)⌋ = 33 := by
    rw [Int.floor_eq_iff]
    constructor <;> norm_num
  have hmf : minutesFrac LATITUDE = 0.435 := by
    unfold minutesFrac
    rw [habs, hfl]
    norm_num
  have hsc : scaled6 (minutesFrac LATITUDE * 60) = 26100000 := by
    rw [hmf]
    unfold scaled6
    have h3 : ⌊(0.435 : ℚ) * 60 * 1000000 + 1 / 2⌋ = (26100000 : ℤ) := by
      rw [Int.floor_eq_iff]
      constructor <;> norm_num
    rw [h3]
    rfl
  unfold convert_latitude_to_nmea_format degreesStr format09_6f
  rw [habs, hfl, hsc, if_neg (show ¬ LATITUDE < 0 by norm_num [LATITUDE])]
  decide

/-- Evaluation of the longitude encoder at the configured map center. -/
theorem longitude_of_map_center :
    convert_longitude_to_nmea_format LONGITUDE = "11200.500000,W" := by
  have habs : |LONGITUDE| = 112.00833334 := by
    rw [abs_of_nonpos (show LONGITUDE ≤ 0 by norm_num [LONGITUDE])]
    norm_num [LONGITUDE]
  have hfl : ⌊(112.00833334 : ℚ)⌋ = 112 := by
    rw [Int.floor_eq_iff]
    constructor <;> norm_num
  have hmf : minutesFrac LONGITUDE = 0.00833334 := by
    unfold minutesFrac
    rw [habs, hfl]
    norm_num
  have hsc : scaled6 (minutesFrac LONGITUDE * 60) = 500000 := by
    rw [hmf]
    unfold scaled6
    have h3 : ⌊(0.00833334 : ℚ) * 60 * 1000000 + 1 / 2⌋ = (500000 : ℤ) := by
      rw [Int.floor_eq_iff]
      constructor <;> norm_num
    rw [h3]
    rfl
  unfold convert_longitude_to_nmea_format degreesStr format09_6f
  rw [habs, hfl, hsc, if_pos (show LONGITUDE < 0 by norm_num [LONGITUDE])]
  decide

/-- The sentence body, with the two coordinate encoders evaluated at the
configured map center. -/
theorem gpggaBody_eval (t : String) :
    gpggaBody t
      = "GPGGA," ++ t ++ "," ++ "3326.100000,N" ++ "," ++ "11200.500000,W"
          ++ ",1,12,1.0,0.0,M,0.0,M,," := by
  unfold gpggaBody
  rw [latitude_of_map_center, longitude_of_map_center]

/-- **C6 (counterexample).** The claim says the sentence carries the current
*UTC* time; the source formats `datetime.datetime.now()` — the local
wall-clock.  In an environment where the local clock reads 05:00:00 while
UTC reads 12:00:00, the emitted sentence is not the claimed form built from
the UTC reading, but exactly that form built from the local reading. -/
theorem mock_gps_not_utc_counterexample :
    get_mock_gps_location_in_nmea_gpgga_format "050000"
        ≠ (get_checksum (gpggaBody "120000")).map
            (fun checksum => "$" ++ gpggaBody "120000" ++ "*" ++ checksum)
    ∧ get_mock_gps_location_in_nmea_gpgga_format "050000"
        = (get_checksum (gpggaBody "050000")).map
            (fun checksum => "$" ++ gpggaBody "050000" ++ "*" ++ checksum) := by
  refine ⟨?_, rfl⟩
  unfold get_mock_gps_location_in_nmea_gpgga_format
  rw [gpggaBody_eval "050000", gpggaBody_eval "120000"]
  decide

/-- Every character of the sentence body is ASCII whenever the embedded time
string is (the fixed parts and the encoded coordinates are ASCII literals). -/
theorem gpggaBody_ascii (t : String) (h : ∀ c ∈ t.toList, c.toNat < 128) :
    ∀ c ∈ (gpggaBody t).toList, c.toNat < 128 := by
  intro c hc
  unfold gpggaBody at hc
  rw [latitude_of_map_center, longitude_of_map_center] at hc
  simp only [String.toList, String.data_append, List.mem_append] at hc
  rcases hc with (((((h1 | h2) | h3) | h4) | h5) | h6) | h7
  · exact (show ∀ x ∈ "GPGGA,".data, x.toNat < 128 by decide) c h1
  · exact h c h2
  · exact (show ∀ x ∈ ",".data, x.toNat < 128 by decide) c h3
  · exact (show ∀ x ∈ "3326.100000,N".data, x.toNat < 128 by decide) c h4
  · exact (show ∀ x ∈ ",".data, x.toNat < 128 by decide) c h5
  · exact (show ∀ x ∈ "11200.500000,W".data, x.toNat < 128 by decide) c h6
  · exact (show ∀ x ∈ ",1,12,1.0,0.0,M,0.0,M,,".data, x.toNat < 128 by decide) c h7

/-- **C6 (amended).** With "UTC wall-clock time" amended to "local wall-clock
time" (the reading of `datetime.now()`): every sentence the emitter returns
has exactly the claimed shape — `$` + body + `*` + checksum of the body —
where the body is the GPGGA tag, the HHMMSS time string, the NMEA-encoded
configured latitude and longitude, and the fixed
fix-quality/satellite-count/HDOP/altitude block; and for every ASCII time
string (the `strftime('%H%M%S')` output always is) the checksum cannot
raise, so a sentence is always returned. -/
theorem mock_gps_sentence_form (t : String) :
    (∀ sentence, get_mock_gps_location_in_nmea_gpgga_format t = some sentence →
      ∃ checksum, get_checksum (gpggaBody t) = some checksum
        ∧ sentence = "$" ++ gpggaBody t ++ "*" ++ checksum)
    ∧ ((∀ c ∈ t.toList, c.toNat < 128) →
        (get_mock_gps_location_in_nmea_gpgga_format t).isSome = true)
    ∧ gpggaBody t
        = "GPGGA," ++ t ++ "," ++ "3326.100000,N" ++ "," ++ "11200.500000,W"
            ++ ",1,12,1.0,0.0,M,0.0,M,," := by
  refine ⟨fun sentence hs => ?_, fun hascii => ?_, ?_⟩
  · unfold get_mock_gps_location_in_nmea_gpgga_format at hs
    rcases hck : get_checksum (gpggaBody t) with _ | checksum
    · rw [hck] at hs
      cases hs
    · rw [hck] at hs
      simp only [Option.map] at hs
      injection hs with hs
      exact ⟨checksum, rfl, hs.symm⟩
  · have h := checksumFold_ascii (gpggaBody t).toList 0 (by norm_num)
      (gpggaBody_ascii t hascii)
    have hE : checksumFoldE (gpggaBody t)
        = some ((gpggaBody t).toList.foldl (fun x c => x ^^^ c.toNat) 0) := h.1
    simp [get_mock_gps_location_in_nmea_gpgga_format, get_checksum, hE]
  · exact gpggaBody_eval t

/-- **C6 (amended, witness).** The amended theorem applied at the time string
`"120000"`: the emitter returns a sentence, and it is exactly the claimed
form with checksum `"63"`. -/
theorem mock_gps_sentence_form_witness :
    (get_mock_gps_location_in_nmea_gpgga_format "120000").isSome = true
    ∧ get_mock_gps_location_in_nmea_gpgga_format "120000"
        = some ("$" ++ gpggaBody "120000" ++ "*" ++ "63")
    ∧ get_checksum (gpggaBody "120000") = some "63" := by
  have h := mock_gps_sentence_form "120000"
  refine ⟨h.2.1 (by decide), ?_, ?_⟩
  · unfold get_mock_gps_location_in_nmea_gpgga_format
    rw [gpggaBody_eval "120000"]
    decide
  · rw [gpggaBody_eval "120000"]
    decide

end DireWolfToNavit
